import Mathlib

/-!
Verification development for the local-meeting-reminder repository.

The repository has two synchronization variants:
  * `calendar_sync.py`       — authenticated Google Calendar API variant;
  * `calendar_sync_ical.py`  — plain iCal feed-parse variant.

Shallow embedding conventions used below:
  * Python strings are embedded as `String` / `List Char` (text that is
    scanned character by character is handled as `List Char`).
  * Python `datetime` values are embedded as `Int` absolute seconds on a
    single time axis (proleptic Gregorian, epoch 1970-01-01).  For valid
    datetimes this encoding is an order embedding, so `datetime` comparison
    and `timedelta` arithmetic in the source map exactly to `Int`
    comparison and addition.  `datetime.now()` at the various points of one
    run is modelled as a single parameter `now` (one instantaneous pass).
  * ISO-timestamp string comparison of `synced_at` values (which for the
    uniform format written by the code agrees with chronological order) is
    embedded as `Int` comparison; a missing `synced_at` key (Python default
    `''`, smaller than every real timestamp) is embedded as `none`.
  * The external ReminderSink (`create_macos_reminder`, an osascript call)
    is a parameter `sink : SinkCall → String` returning the script's
    stdout; the code branches on the exact strings "created" and "exists",
    anything else (a failure) takes neither branch.
  * `dateutil.parser.parse` (only used by the API variant) is an external
    library; it is a parameter `dparse : String → Option Int`, `none`
    standing for the exception path.
  * Fallible I/O is `Option`/`Bool`: the feed variant's guarded fetch
    failure is `none`; the API variant distinguishes its guarded
    service-connection step (a `Bool`) from its unguarded events request
    (`none` = a raised, uncaught error); the persisted state file being
    absent or unreadable JSON is `none`.
-/

namespace MeetingSync

/-! ## Character and string utilities -/

/-- Backslash character (written by code point to keep literals simple). -/
def backslashC : Char := Char.ofNat 92

/-- Single-quote character. -/
def quoteC : Char := Char.ofNat 39

/-- Python regex `\s` on the ASCII whitespace characters (the inputs the
theorems below evaluate contain no exotic Unicode whitespace). -/
def isSpaceC (c : Char) : Bool :=
  c = ' ' || c = '\t' || c = '\n' || c = '\r' || c = Char.ofNat 11 || c = Char.ofNat 12

/-- Character class `[^\s<"\']` of `calendar_sync.py`'s link patterns. -/
def allowedTail (c : Char) : Bool :=
  !(isSpaceC c) && c ≠ '<' && c ≠ '"' && c ≠ quoteC

/-- Character class `[^\s<>"\'\\]` of `calendar_sync_ical.py`'s URL pattern. -/
def allowedUrl (c : Char) : Bool :=
  !(isSpaceC c) && c ≠ '<' && c ≠ '>' && c ≠ '"' && c ≠ quoteC && c ≠ backslashC

/-- Strip an expected literal from the front of a character list. -/
def stripPrefixC : List Char → List Char → Option (List Char)
  | [], cs => some cs
  | _ :: _, [] => none
  | p :: ps, c :: cs => if p = c then stripPrefixC ps cs else none

/-- Does `p` occur at the front of `cs`? -/
def isPrefixC (p cs : List Char) : Bool :=
  (stripPrefixC p cs).isSome

/-- Python's substring test `needle in hay`. -/
def containsSub (n : List Char) : List Char → Bool
  | [] => isPrefixC n []
  | c :: t => isPrefixC n (c :: t) || containsSub n t

/-- `str.replace(pat, rep)` (non-overlapping, left to right), with fuel;
`pat` is non-empty at every use, so fuel `cs.length` always suffices
(every step consumes at least one input character). -/
def replaceAllF (pat rep : List Char) : Nat → List Char → List Char
  | 0, cs => cs
  | _ + 1, [] => []
  | f + 1, c :: rest =>
    match stripPrefixC pat (c :: rest) with
    | some rem => rep ++ replaceAllF pat rep f rem
    | none => c :: replaceAllF pat rep f rest

/-- `str.replace(pat, rep)`. -/
def replaceAll (pat rep cs : List Char) : List Char :=
  replaceAllF pat rep cs.length cs

/-! ## iCal datetime parsing (`parse_ical_datetime`, calendar_sync_ical.py 96-109) -/

/-- `dt_str.replace('Z', '')` — removes every `'Z'`. -/
def removeZ : List Char → List Char
  | [] => []
  | c :: r => if c = 'Z' then removeZ r else c :: removeZ r

/-- Naive datetime record, the result shape of
`datetime.strptime(dt_str[:15], '%Y%m%dT%H%M%S')` — carries no timezone. -/
structure NaiveDT where
  year : Nat
  month : Nat
  day : Nat
  hour : Nat
  minute : Nat
  second : Nat
deriving DecidableEq, Repr

def isDigitC (c : Char) : Bool := 48 ≤ c.toNat && c.toNat ≤ 57

def digitVal (c : Char) : Nat := c.toNat - 48

def isLeap (y : Nat) : Bool := (y % 4 = 0 && y % 100 ≠ 0) || y % 400 = 0

def daysInMonth (y m : Nat) : Nat :=
  if m = 2 then (if isLeap y then 29 else 28)
  else if m = 4 || m = 6 || m = 9 || m = 11 then 30
  else 31

/-- The fixed fifteen-character positional pattern `%Y%m%dT%H%M%S`, with the
field validation `datetime.strptime` performs (it raises, i.e. here `none`,
on out-of-range fields such as month 13 or Feb 30). -/
def parseCompact (cs : List Char) : Option NaiveDT :=
  match cs with
  | [y1, y2, y3, y4, m1, m2, d1, d2, t, h1, h2, mi1, mi2, s1, s2] =>
    if t = 'T' &&
       [y1, y2, y3, y4, m1, m2, d1, d2, h1, h2, mi1, mi2, s1, s2].all isDigitC then
      let y := ((digitVal y1 * 10 + digitVal y2) * 10 + digitVal y3) * 10 + digitVal y4
      let mo := digitVal m1 * 10 + digitVal m2
      let d := digitVal d1 * 10 + digitVal d2
      let h := digitVal h1 * 10 + digitVal h2
      let mi := digitVal mi1 * 10 + digitVal mi2
      let s := digitVal s1 * 10 + digitVal s2
      if 1 ≤ y && 1 ≤ mo && mo ≤ 12 && 1 ≤ d && d ≤ daysInMonth y mo &&
         h ≤ 23 && mi ≤ 59 && s ≤ 59 then
        some ⟨y, mo, d, h, mi, s⟩
      else none
    else none
  | _ => none

/-- `parse_ical_datetime` (calendar_sync_ical.py 96-109): every `'Z'` is
removed, then a string containing `'T'` is parsed by the fifteen-character
positional pattern (first fifteen characters), anything else — a date-only
all-day value, a short string, an invalid field — yields `None`. -/
def parse_ical_datetime (s : List Char) : Option NaiveDT :=
  let s' := removeZ s
  if s'.contains 'T' then parseCompact (s'.take 15) else none

/-- Days since 0000-03-01 of a proleptic-Gregorian civil date (valid for
`1 ≤ y`, `1 ≤ m ≤ 12`); standard days-from-civil computation in `Nat`. -/
def rataDie (y m d : Nat) : Nat :=
  let y' := if m ≤ 2 then y - 1 else y
  let era := y' / 400
  let yoe := y' % 400
  let mp := (m + 9) % 12
  let doy := (153 * mp + 2) / 5 + d - 1
  let doe := yoe * 365 + yoe / 4 - yoe / 100 + doy
  era * 146097 + doe

/-- Absolute seconds since 1970-01-01 00:00:00 of a naive datetime.  For
valid datetimes this is an order embedding, so Python `datetime`
comparison and `timedelta` arithmetic map to `Int` operations. -/
def naiveToSec (dt : NaiveDT) : Int :=
  ((rataDie dt.year dt.month dt.day : Int) - 719468) * 86400
    + dt.hour * 3600 + dt.minute * 60 + dt.second

/-- Two-digit zero-padded decimal (for `strftime('%H:%M')`). -/
def pad2 (n : Nat) : List Char :=
  [Char.ofNat (48 + n / 10 % 10), Char.ofNat (48 + n % 10)]

/-- `strftime('%H:%M')` of the datetime with absolute seconds `t`. -/
def fmtHM (t : Int) : List Char :=
  let sod := (t.emod 86400).toNat
  pad2 (sod / 3600) ++ ':' :: pad2 (sod % 3600 / 60)

/-! ## Meeting-link pattern scan, API variant
(`extract_meeting_link`, calendar_sync.py 91-114)

The three patterns are, in order:
  `https://[^\s]*zoom\.us/[^\s<"\']+`
  `https://meet\.google\.com/[^\s<"\']+`
  `https://teams\.microsoft\.com/[^\s<"\']+`
searched with `re.search` (leftmost starting position; at a position the
greedy `[^\s]*` backtracks, i.e. takes the longest non-whitespace run that
still lets `zoom.us/` and a non-empty tail match). -/

/-- Can `"zoom.us/"` followed by a non-empty allowed tail match right
here?  (The zero-length-`[^\s]*` case of the backtracking search.) -/
def zoomHere (cs : List Char) : Option (List Char × List Char) :=
  match stripPrefixC ("zoom.us/".data) cs with
  | some tail =>
    match tail with
    | t :: _ => if allowedTail t then some ([], tail) else none
    | [] => none
  | none => none

/-- Split `cs` as `pre ++ "zoom.us/" ++ tl` where `pre` contains no
whitespace, `tl` starts with an `allowedTail` character, and `pre` is as
long as possible (greedy `[^\s]*` with backtracking). -/
def zoomSplit : List Char → Option (List Char × List Char)
  | [] => zoomHere []
  | c :: rest =>
    if isSpaceC c then zoomHere (c :: rest)
    else
      match zoomSplit rest with
      | some (pre, tl) => some (c :: pre, tl)
      | none => zoomHere (c :: rest)

/-- Match of the zoom pattern anchored at the start of `cs`. -/
def matchZoomAt (cs : List Char) : Option (List Char) :=
  match stripPrefixC ("https://".data) cs with
  | some rest =>
    match zoomSplit rest with
    | some (pre, tl) =>
      some ("https://".data ++ pre ++ "zoom.us/".data ++ tl.takeWhile allowedTail)
    | none => none
  | none => none

/-- Match of a host-anchored pattern `lit ++ [^\s<"\']+` at the start. -/
def matchAnchoredAt (lit : List Char) (cs : List Char) : Option (List Char) :=
  match stripPrefixC lit cs with
  | some rest =>
    match rest with
    | t :: _ => if allowedTail t then some (lit ++ rest.takeWhile allowedTail) else none
    | [] => none
  | none => none

/-- `re.search`: first (leftmost) position at which `mAt` matches. -/
def reSearch (mAt : List Char → Option (List Char)) : List Char → Option (List Char)
  | [] => mAt []
  | c :: rest =>
    match mAt (c :: rest) with
    | some m => some m
    | none => reSearch mAt rest

/-- The description scan of `extract_meeting_link`: the three patterns are
tried in order and the first pattern with a match wins. -/
def regexScanAPI (d : List Char) : Option (List Char) :=
  match reSearch matchZoomAt d with
  | some m => some m
  | none =>
    match reSearch (matchAnchoredAt "https://meet.google.com/".data) d with
    | some m => some m
    | none => reSearch (matchAnchoredAt "https://teams.microsoft.com/".data) d

/-! ## Meeting-link scan, feed variant (calendar_sync_ical.py 223-235) -/

/-- One match of `https://[^\s<>"\'\\]+` anchored at the start, returning
the match and the remainder after it. -/
def urlMatchAt (cs : List Char) : Option (List Char × List Char) :=
  match stripPrefixC ("https://".data) cs with
  | some rest =>
    match rest with
    | t :: _ =>
      if allowedUrl t then
        some ("https://".data ++ rest.takeWhile allowedUrl, rest.dropWhile allowedUrl)
      else none
    | [] => none
  | none => none

/-- `re.findall(r'https://[^\s<>"\'\\]+', text)` with fuel; every step
consumes at least one character, so fuel `cs.length` always suffices. -/
def findallUrlsF : Nat → List Char → List (List Char)
  | 0, _ => []
  | _ + 1, [] => []
  | f + 1, c :: rest =>
    match urlMatchAt (c :: rest) with
    | some (m, rem) => m :: findallUrlsF f rem
    | none => findallUrlsF f rest

def findallUrls (cs : List Char) : List (List Char) :=
  findallUrlsF cs.length cs

/-- `'zoom.us' in text or 'meet.google.com' in text or
'teams.microsoft.com' in text`. -/
def providerSub (t : List Char) : Bool :=
  containsSub "zoom.us".data t || containsSub "meet.google.com".data t ||
    containsSub "teams.microsoft.com".data t

/-- Inner loop of the feed-variant scan: first URL of `findall` that
contains one of the provider domains as a substring. -/
def icalScanText (t : List Char) : Option (List Char) :=
  (findallUrls t).find? providerSub

/-- The feed variant's link scan over `[description, location]`: the first
of the two texts containing a provider substring is scanned (and the loop
breaks after it whether or not a URL qualified). -/
def icalLinkScan (desc loc : List Char) : Option (List Char) :=
  if providerSub desc then icalScanText desc
  else if providerSub loc then icalScanText loc
  else none

/-- iCal text unescaping applied to SUMMARY (calendar_sync_ical.py 218):
`.replace('\\,', ',').replace('\\;', ';').replace('\\n', '\n')`. -/
def icalUnescape (s : List Char) : List Char :=
  replaceAll [backslashC, 'n'] ['\n']
    (replaceAll [backslashC, ';'] [';']
      (replaceAll [backslashC, ','] [','] s))

/-- Host of an https URL (text between `https://` and the next `/`), used
to state what a "partial domain" match is. -/
def hostOf (u : List Char) : List Char :=
  match stripPrefixC ("https://".data) u with
  | some r => r.takeWhile (fun c => c ≠ '/')
  | none => []

/-- Suffix test on character lists. -/
def isSuffixC (p cs : List Char) : Bool :=
  isPrefixC p.reverse cs.reverse

/-- Is `h` one of the three meeting-provider hosts, or a subdomain of one?
(The spec's notion of a URL "belonging to" a provider domain.) -/
def isProviderHost (h : List Char) : Bool :=
  (["zoom.us", "meet.google.com", "teams.microsoft.com"].map String.data).any
    (fun d => h == d || isSuffixC ('.' :: d) h)

/-! ## Ledger (`load_synced_events` / `save_synced_events`,
calendar_sync.py 71-88 and calendar_sync_ical.py 49-65) -/

/-- One persisted entry: `{'summary': …, 'start_time': …, 'synced_at': …}`.
`synced_at = none` embeds a missing key (Python default `''`). -/
structure LedgerEntry where
  summary : String
  start_time : Int
  synced_at : Option Int
deriving DecidableEq, Repr

/-- The persisted dict, as an insertion-ordered association list. -/
abbrev Ledger := List (String × LedgerEntry)

def lookupL : Ledger → String → Option LedgerEntry
  | [], _ => none
  | (k', e') :: rest, k => if k' = k then some e' else lookupL rest k

/-- `synced[event_id] = {...}`: replace in place, or append a new key. -/
def insertL : Ledger → String → LedgerEntry → Ledger
  | [], k, e => [(k, e)]
  | (k', e') :: rest, k, e =>
    if k' = k then (k, e) :: rest else (k', e') :: insertL rest k e

/-- The retention predicate `v.get('synced_at', '') > cutoff` with
`cutoff = now - 2 days` (172800 seconds); a missing key compares below
every cutoff. -/
def keepEntry (now : Int) (kv : String × LedgerEntry) : Bool :=
  match kv.2.synced_at with
  | some t => decide (t > now - 172800)
  | none => false

/-- `load_synced_events`: a missing or unreadable state file is `none` and
loads as the empty dict; otherwise entries older than the 2-day window are
dropped. -/
def load_synced_events (data : Option Ledger) (now : Int) : Ledger :=
  match data with
  | none => []
  | some d => d.filter (keepEntry now)

/-- `save_synced_events` writes the dict as is — no eviction on write. -/
def save_synced_events (synced : Ledger) : Ledger :=
  synced

/-! ## ReminderSink boundary -/

/-- The argument tuple of `create_macos_reminder(event_id, title, body,
remind_date)`. -/
structure SinkCall where
  event_id : String
  title : String
  body : String
  remind : Int
deriving DecidableEq, Repr

/-- Shared recording step (calendar_sync.py 252-268, calendar_sync_ical.py
238-253): on `"created"` or `"exists"` the ledger entry is written or
refreshed; any other sink result (a failure) writes nothing. -/
def recordStep (L : Ledger) (id : String) (e : LedgerEntry) (c : SinkCall)
    (res : String) : Ledger × Option SinkCall :=
  if res = "created" ∨ res = "exists" then (insertL L id e, some c)
  else (L, some c)

/-! ## API variant events and sync pass (calendar_sync.py) -/

/-- One element of `conferenceData.entryPoints`. -/
structure EntryPoint where
  entryPointType : Option String
  uri : Option String
deriving DecidableEq, Repr

/-- An event object of the authenticated API, restricted to the fields the
sync reads.  `startHasDate` is `'date' in start`; `startDateTime = none`
is `'dateTime' not in start`; `hasConfData` is `'conferenceData' in
event`; `organizerEmail` is `event.get('organizer', {}).get('email', '')`. -/
structure GEvent where
  id : String
  startHasDate : Bool
  startDateTime : Option String
  status : Option String
  summary : Option String
  hangoutLink : Option String
  hasConfData : Bool
  entryPoints : List EntryPoint
  description : String
  organizerEmail : String
deriving DecidableEq, Repr

/-- The `conferenceData` loop: the first entry point whose type is
`'video'` ends the function with `ep.get('uri')` (which may itself be
absent); `some r` embeds that `return`, `none` falls through to the
description scan. -/
def epScan : List EntryPoint → Option (Option String)
  | [] => none
  | ep :: rest => if ep.entryPointType = some "video" then some ep.uri else epScan rest

/-- `extract_meeting_link` (calendar_sync.py 91-114). -/
def extract_meeting_link (ev : GEvent) : Option String :=
  match ev.hangoutLink with
  | some l => some l
  | none =>
    match (if ev.hasConfData then epScan ev.entryPoints else none) with
    | some r => r
    | none => (regexScanAPI ev.description.data).map String.mk

/-- `body_parts` of calendar_sync.py 239-249: the starts-at line, then the
optional Join line, then the Organizer line unless the organizer email is
empty or equals the hard-coded `'boriss@wix.com'`. -/
def apiBodyParts (ev : GEvent) (st : Int) : List String :=
  ["Starts at " ++ String.mk (fmtHM st)] ++
    (match extract_meeting_link ev with
     | some l => ["Join: " ++ l]
     | none => []) ++
    (if ev.organizerEmail ≠ "" ∧ ev.organizerEmail ≠ "boriss@wix.com" then
       ["Organizer: " ++ ev.organizerEmail]
     else [])

def joinNL (parts : List String) : String :=
  String.intercalate "\n" parts

/-- The sink call built for an API event with parsed start `st`. -/
def apiCall (ev : GEvent) (st : Int) : SinkCall :=
  ⟨ev.id,
   "📅 " ++ ev.summary.getD "Untitled Meeting" ++ " - " ++ String.mk (fmtHM st),
   joinNL (apiBodyParts ev st),
   st - 180⟩

/-- The ledger entry recorded for an API event. -/
def apiEntry (ev : GEvent) (st now : Int) : LedgerEntry :=
  ⟨ev.summary.getD "Untitled Meeting", st, some now⟩

/-- Per-event body of the API sync loop (calendar_sync.py 199-268):
skip all-day (`'date'` present without `'dateTime'`), skip cancelled,
skip empty start string, skip unparseable start, skip a reminder time
already in the past, skip ids already in the ledger; otherwise call the
sink and record per `recordStep`.  `dparse` stands for
`dateutil.parser.parse` (`none` = exception). -/
def processGEvent (dparse : String → Option Int) (sink : SinkCall → String)
    (now : Int) (L : Ledger) (ev : GEvent) : Ledger × Option SinkCall :=
  if ev.startHasDate && ev.startDateTime.isNone then (L, none)
  else if ev.status = some "cancelled" then (L, none)
  else if ev.startDateTime.getD "" = "" then (L, none)
  else
    match dparse (ev.startDateTime.getD "") with
    | none => (L, none)
    | some st =>
      if st - 180 < now then (L, none)
      else if (lookupL L ev.id).isSome then (L, none)
      else recordStep L ev.id (apiEntry ev st now) (apiCall ev st)
             (sink (apiCall ev st))

/-- The per-run loop: thread the in-memory dict through the events and
collect the sink calls made. -/
def syncFold (step : Ledger → α → Ledger × Option SinkCall) :
    Ledger → List α → Ledger × List SinkCall
  | L, [] => (L, [])
  | L, ev :: rest =>
    let r := step L ev
    let r' := syncFold step r.1 rest
    (r'.1, match r.2 with | some c => c :: r'.2 | none => r'.2)

/-- How a `sync_calendar` run of calendar_sync.py can end: normal
completion; the logged `return` of the `except` branch guarding
`get_calendar_service` (lines 187-191); or an exception propagating out
of the unguarded `get_upcoming_events` call (line 196), which no handler
catches. -/
inductive RunEnd where
  | completed
  | loggedAbort
  | uncaught
deriving DecidableEq, Repr

/-- Observable trace of one calendar_sync.py run: the persisted store
after the run, the sink calls made, whether `load_synced_events` ran
before the run ended, and how the run ended. -/
structure RunTrace where
  store : Option Ledger
  calls : List SinkCall
  loaded : Bool
  ending : RunEnd
deriving DecidableEq, Repr

/-- `sync_calendar` of calendar_sync.py (183-271).  `connect` is the
guarded `get_calendar_service()` (the `try` at 187): on failure the run
logs and returns before anything is loaded.  `fetched` is the unguarded
`get_upcoming_events(service)` call at line 196, which runs only after
`load_synced_events()` (line 194): `none` is a network error raised
there, killing the run by unhandled exception — at that point the ledger
has already been loaded for write, but is never saved.  On success:
process every event, save once. -/
def sync_calendar_api (dparse : String → Option Int) (sink : SinkCall → String)
    (now : Int) (connect : Bool) (fetched : Option (List GEvent))
    (store : Option Ledger) : RunTrace :=
  if connect then
    match fetched with
    | none => ⟨store, [], true, RunEnd.uncaught⟩
    | some events =>
      let r := syncFold (processGEvent dparse sink now) (load_synced_events store now) events
      ⟨some (save_synced_events r.1), r.2, true, RunEnd.completed⟩
  else ⟨store, [], false, RunEnd.loggedAbort⟩

/-! ## Feed variant events and sync pass (calendar_sync_ical.py) -/

/-- An event dict produced by `parse_ical`: property name to raw value. -/
abbrev IcalEvent := List (String × String)

/-- `event.get(k, '')`. -/
def iget (ev : IcalEvent) (k : String) : String :=
  (ev.lookup k).getD ""

/-- `event.get(k, d)`. -/
def igetD (ev : IcalEvent) (k d : String) : String :=
  (ev.lookup k).getD d

/-- The decoded summary (calendar_sync_ical.py 216-218): default, then
backslash-unescape. -/
def icalSummary (ev : IcalEvent) : String :=
  String.mk (icalUnescape (igetD ev "SUMMARY" "Untitled Meeting").data)

/-- Reminder title of the feed variant. -/
def icalTitle (summary : String) (st : Int) : String :=
  "📅 " ++ summary ++ " - " ++ String.mk (fmtHM st)

/-- Reminder body of the feed variant: the starts-at line plus the Join
line when the scan found a URL. -/
def icalBody (st : Int) (link : Option (List Char)) : String :=
  "Starts at " ++ String.mk (fmtHM st) ++
    (match link with
     | some u => "\nJoin: " ++ String.mk u
     | none => "")

/-- The sink call built for a feed event with parsed start `st`; the link
scan runs on the raw DESCRIPTION and LOCATION values. -/
def icalCall (ev : IcalEvent) (st : Int) : SinkCall :=
  ⟨iget ev "UID", icalTitle (icalSummary ev) st,
   icalBody st (icalLinkScan (iget ev "DESCRIPTION").data (iget ev "LOCATION").data),
   st - 180⟩

/-- The ledger entry recorded for a feed event. -/
def icalEntry (ev : IcalEvent) (st now : Int) : LedgerEntry :=
  ⟨icalSummary ev, st, some now⟩

/-- Per-event body of the feed sync loop (calendar_sync_ical.py 190-253):
skip an empty UID, skip events whose DTSTART does not parse (all-day or
malformed), skip starts outside `[now, now + 24h]`, skip ids already in
the ledger, skip a reminder time already in the past; otherwise call the
sink and record per `recordStep`.  There is no cancellation check. -/
def processIcalEvent (sink : SinkCall → String) (now : Int) (L : Ledger)
    (ev : IcalEvent) : Ledger × Option SinkCall :=
  if iget ev "UID" = "" then (L, none)
  else
    match parse_ical_datetime (iget ev "DTSTART").data with
    | none => (L, none)
    | some dt =>
      if naiveToSec dt < now ∨ naiveToSec dt > now + 86400 then (L, none)
      else if (lookupL L (iget ev "UID")).isSome then (L, none)
      else if naiveToSec dt - 180 < now then (L, none)
      else recordStep L (iget ev "UID") (icalEntry ev (naiveToSec dt) now)
             (icalCall ev (naiveToSec dt)) (sink (icalCall ev (naiveToSec dt)))

/-- `sync_calendar` of calendar_sync_ical.py: a failed feed fetch
(`fetched = none`, the `urlopen` exception path) aborts before the ledger
is loaded for write or saved; otherwise load, process every parsed event,
save once. -/
def sync_calendar_ical (sink : SinkCall → String) (now : Int)
    (fetched : Option (List IcalEvent)) (store : Option Ledger) :
    Option Ledger × List SinkCall :=
  match fetched with
  | none => (store, [])
  | some events =>
    let r := syncFold (processIcalEvent sink now) (load_synced_events store now) events
    (some (save_synced_events r.1), r.2)

/-! ## Concrete instances used by witnesses and counterexamples -/

/-- A sink whose osascript output is always `"created"`. -/
def skC : SinkCall → String := fun _ => "created"

/-- A sink whose osascript output is always `"exists"`. -/
def skE : SinkCall → String := fun _ => "exists"

/-- A failing sink: the osascript call produced no usable output. -/
def skF : SinkCall → String := fun _ => ""

/-- Reference instant 2025-06-11 10:00:00 used by concrete runs. -/
def now0 : Int := naiveToSec ⟨2025, 6, 11, 10, 0, 0⟩

/-- A parse stub: `dateutil` resolves the start string to 12:00:00 on the
axis origin day (absolute second 43200). -/
def dp0 : String → Option Int := fun _ => some 43200

/-- A parse stub resolving to 10:01:40 (absolute second 36100). -/
def dp4 : String → Option Int := fun _ => some 36100

/-- A well-formed timed API event. -/
def evW : GEvent :=
  ⟨"e1", false, some "2025-06-11T12:00:00", none, some "Meet", none, false, [], "", ""⟩

/-- An API event whose start is near enough that its fire time has passed. -/
def evC4api : GEvent :=
  ⟨"e4", false, some "2025-06-11T10:01:40", none, none, none, false, [], "", ""⟩

/-- A cancelled API event. -/
def evCanApi : GEvent :=
  ⟨"e5", false, some "2025-06-11T12:00:00", some "cancelled", none, none, false, [], "", ""⟩

/-- An API event whose description holds a URL of an unrelated host that
merely contains `zoom.us` as a substring. -/
def evSub : GEvent :=
  ⟨"e6", false, some "x", none, none, none, false, [],
   "Meeting https://notzoom.us/j/1 now", ""⟩

/-- A cancelled feed event with a valid in-window timed start. -/
def evCan : IcalEvent :=
  [("UID", "e2"), ("DTSTART", "20250611T120000"), ("STATUS", "CANCELLED"),
   ("SUMMARY", "S")]

/-- An all-day feed event (date-only DTSTART). -/
def evAD : IcalEvent := [("UID", "e3"), ("DTSTART", "20250612")]

/-- A feed event whose fire time has passed though its start is ahead. -/
def evC4 : IcalEvent := [("UID", "e4"), ("DTSTART", "20250611T100130")]

/-- A feed event carrying the trailing UTC indicator on its start. -/
def evZ : IcalEvent := [("UID", "ez"), ("DTSTART", "20250611T120000Z")]

/-- A feed event whose description holds an escaped comma inside a zoom
URL. -/
def evEsc : IcalEvent :=
  [("UID", "e7"), ("DTSTART", "20250611T120000"),
   ("DESCRIPTION", "Join https://zoom.us/j/1\x5c,2 here")]

/-- The sink call `evW` produces. -/
def cW : SinkCall := ⟨"e1", "📅 Meet - 12:00", "Starts at 12:00", 43020⟩

/-- The sink call `evCan` produces. -/
def cCan : SinkCall :=
  ⟨"e2", "📅 S - 12:00", "Starts at 12:00", naiveToSec ⟨2025, 6, 11, 12, 0, 0⟩ - 180⟩

/-- Key containment between two in-memory dicts. -/
def keysSub (L M : Ledger) : Prop :=
  ∀ k, (lookupL L k).isSome = true → (lookupL M k).isSome = true

/-- Every entry of `L` survives the retention filter at `now`. -/
def freshL (now : Int) (L : Ledger) : Prop :=
  ∀ kv ∈ L, keepEntry now kv = true

/-! ## Helper lemmas: ledger dictionary -/

theorem lookupL_insertL (L : Ledger) (k : String) (e : LedgerEntry) (k' : String) :
    lookupL (insertL L k e) k' = if k = k' then some e else lookupL L k' := by
  induction L with
  | nil => simp [insertL, lookupL]
  | cons kv rest ih =>
    obtain ⟨a, b⟩ := kv
    by_cases hak : a = k
    · subst hak
      by_cases hk' : a = k' <;> simp [insertL, lookupL, hk']
    · by_cases hk' : a = k'
      · subst hk'
        simp [insertL, lookupL, hak, ih]
        rw [if_neg (fun h => hak h.symm)]
      · simp [insertL, lookupL, hak, hk', ih]

theorem mem_insertL {L : Ledger} {k : String} {e : LedgerEntry} {x : String × LedgerEntry}
    (h : x ∈ insertL L k e) : x ∈ L ∨ x = (k, e) := by
  induction L with
  | nil => simp [insertL] at h; exact Or.inr h
  | cons kv rest ih =>
    obtain ⟨a, b⟩ := kv
    by_cases hak : a = k
    · subst hak
      simp [insertL] at h
      rcases h with h | h
      · exact Or.inr h
      · exact Or.inl (List.mem_cons_of_mem _ h)
    · simp [insertL, hak] at h
      rcases h with h | h
      · exact Or.inl (by simp [h])
      · rcases ih h with h' | h'
        · exact Or.inl (List.mem_cons_of_mem _ h')
        · exact Or.inr h'

theorem keysSub_refl (L : Ledger) : keysSub L L :=
  fun _ h => h

theorem keysSub_trans {A B C : Ledger} (h1 : keysSub A B) (h2 : keysSub B C) :
    keysSub A C :=
  fun k hk => h2 k (h1 k hk)

theorem keysSub_insertL (L : Ledger) (k : String) (e : LedgerEntry) :
    keysSub L (insertL L k e) := by
  intro k' hk'
  rw [lookupL_insertL]
  by_cases h : k = k' <;> simp [h, hk']

theorem lookupL_insertL_self (L : Ledger) (k : String) (e : LedgerEntry) :
    (lookupL (insertL L k e) k).isSome = true := by
  rw [lookupL_insertL]
  simp

/-! ## Helper lemmas: the per-run fold -/

theorem syncFold_cons (step : Ledger → α → Ledger × Option SinkCall) (L : Ledger)
    (ev : α) (rest : List α) :
    syncFold step L (ev :: rest) =
      ((syncFold step (step L ev).1 rest).1,
       match (step L ev).2 with
       | some c => c :: (syncFold step (step L ev).1 rest).2
       | none => (syncFold step (step L ev).1 rest).2) := rfl

theorem syncFold_keysSub (step : Ledger → α → Ledger × Option SinkCall)
    (hmono : ∀ L ev, keysSub L (step L ev).1) :
    ∀ (evs : List α) (L : Ledger), keysSub L (syncFold step L evs).1 := by
  intro evs
  induction evs with
  | nil => intro L; exact keysSub_refl L
  | cons ev rest ih => intro L; exact keysSub_trans (hmono L ev) (ih (step L ev).1)

theorem syncFold_stable (step1 step2 : Ledger → α → Ledger × Option SinkCall)
    (hmono : ∀ L ev, keysSub L (step1 L ev).1)
    (hdich : ∀ L M ev, keysSub (step1 L ev).1 M → step2 M ev = (M, none)) :
    ∀ (evs : List α) (L M : Ledger),
      keysSub (syncFold step1 L evs).1 M → syncFold step2 M evs = (M, []) := by
  intro evs
  induction evs with
  | nil => intro L M _; rfl
  | cons ev rest ih =>
    intro L M h
    have hsub : keysSub (step1 L ev).1 M :=
      keysSub_trans (syncFold_keysSub step1 hmono rest (step1 L ev).1) h
    have hstep : step2 M ev = (M, none) := hdich L M ev hsub
    have hrest : syncFold step2 M rest = (M, []) := ih (step1 L ev).1 M h
    rw [syncFold_cons, hstep]
    simp [hrest]

/-! ## Helper lemmas: retention freshness -/

theorem keepEntry_now (now : Int) (s : String) (st : Int) (k : String) :
    keepEntry now (k, ⟨s, st, some now⟩) = true := by
  simp [keepEntry]

theorem freshL_load (store : Option Ledger) (now : Int) :
    freshL now (load_synced_events store now) := by
  intro kv hkv
  cases store with
  | none => simp [load_synced_events] at hkv
  | some d =>
    simp only [load_synced_events] at hkv
    exact (List.mem_filter.mp hkv).2

theorem freshL_insertL {now : Int} {L : Ledger} {k : String} {e : LedgerEntry}
    (h : freshL now L) (he : keepEntry now (k, e) = true) :
    freshL now (insertL L k e) := by
  intro kv hkv
  rcases mem_insertL hkv with h' | h'
  · exact h kv h'
  · rw [h']; exact he

theorem load_of_fresh {now : Int} {F : Ledger} (h : freshL now F) :
    load_synced_events (some F) now = F := by
  simp only [load_synced_events]
  exact List.filter_eq_self.mpr h

theorem freshL_fold (step : Ledger → α → Ledger × Option SinkCall)
    (hpres : ∀ L ev, freshL now L → freshL now (step L ev).1) :
    ∀ (evs : List α) (L : Ledger), freshL now L → freshL now (syncFold step L evs).1 := by
  intro evs
  induction evs with
  | nil => intro L h; exact h
  | cons ev rest ih => intro L h; exact ih (step L ev).1 (hpres L ev h)

/-! ## Helper lemmas: the recording step and the per-event bodies -/

theorem recordStep_inv {L : Ledger} {id : String} {e : LedgerEntry} {c : SinkCall}
    {res : String} {L' : Ledger} {c' : SinkCall}
    (h : recordStep L id e c res = (L', some c')) :
    c' = c ∧ ((res = "created" ∨ res = "exists") → L' = insertL L id e) ∧
      (res ≠ "created" → res ≠ "exists" → L' = L) := by
  unfold recordStep at h
  split_ifs at h with hr
  · injection h with hL hc
    injection hc with hc
    refine ⟨hc.symm, fun _ => hL.symm, fun hn1 hn2 => ?_⟩
    rcases hr with h' | h'
    · exact absurd h' hn1
    · exact absurd h' hn2
  · injection h with hL hc
    injection hc with hc
    exact ⟨hc.symm, fun hres => absurd hres hr, fun _ _ => hL.symm⟩

theorem processGEvent_shape (dparse : String → Option Int) (sink : SinkCall → String)
    (now : Int) (L : Ledger) (ev : GEvent) :
    (processGEvent dparse sink now L ev).1 = L ∨
    ∃ st, (processGEvent dparse sink now L ev).1 = insertL L ev.id (apiEntry ev st now) := by
  unfold processGEvent recordStep
  repeat' split
  all_goals first
    | exact Or.inl rfl
    | exact Or.inr ⟨_, rfl⟩

theorem processIcalEvent_shape (sink : SinkCall → String) (now : Int) (L : Ledger)
    (ev : IcalEvent) :
    (processIcalEvent sink now L ev).1 = L ∨
    ∃ st, (processIcalEvent sink now L ev).1 =
      insertL L (iget ev "UID") (icalEntry ev st now) := by
  unfold processIcalEvent recordStep
  repeat' split
  all_goals first
    | exact Or.inl rfl
    | exact Or.inr ⟨_, rfl⟩

theorem processGEvent_keysSub (dparse : String → Option Int) (sink : SinkCall → String)
    (now : Int) (L : Ledger) (ev : GEvent) :
    keysSub L (processGEvent dparse sink now L ev).1 := by
  rcases processGEvent_shape dparse sink now L ev with h | ⟨st, h⟩
  · rw [h]; exact keysSub_refl L
  · rw [h]; exact keysSub_insertL L ev.id _

theorem processIcalEvent_keysSub (sink : SinkCall → String) (now : Int) (L : Ledger)
    (ev : IcalEvent) :
    keysSub L (processIcalEvent sink now L ev).1 := by
  rcases processIcalEvent_shape sink now L ev with h | ⟨st, h⟩
  · rw [h]; exact keysSub_refl L
  · rw [h]; exact keysSub_insertL L _ _

theorem freshL_processGEvent {now : Int} {L : Ledger} (dparse : String → Option Int)
    (sink : SinkCall → String) (ev : GEvent) (h : freshL now L) :
    freshL now (processGEvent dparse sink now L ev).1 := by
  rcases processGEvent_shape dparse sink now L ev with hS | ⟨st, hS⟩
  · rw [hS]; exact h
  · rw [hS]; exact freshL_insertL h (keepEntry_now now _ st ev.id)

theorem freshL_processIcalEvent {now : Int} {L : Ledger} (sink : SinkCall → String)
    (ev : IcalEvent) (h : freshL now L) :
    freshL now (processIcalEvent sink now L ev).1 := by
  rcases processIcalEvent_shape sink now L ev with hS | ⟨st, hS⟩
  · rw [hS]; exact h
  · rw [hS]; exact freshL_insertL h (keepEntry_now now _ st _)

/-- If the first pass's sink never failed on an event, then after that pass
the event is skipped (at one of the checks before the sink) by any later
pass over a ledger containing the first pass's keys. -/
theorem processGEvent_dich {dparse : String → Option Int} {sink1 : SinkCall → String}
    (sink2 : SinkCall → String) {now : Int} {L M : Ledger} {ev : GEvent}
    (hs : ∀ c, sink1 c = "created" ∨ sink1 c = "exists")
    (h : keysSub (processGEvent dparse sink1 now L ev).1 M) :
    processGEvent dparse sink2 now M ev = (M, none) := by
  by_cases h1 : (ev.startHasDate && ev.startDateTime.isNone) = true
  · simp [processGEvent, h1]
  · rw [Bool.not_eq_true] at h1
    by_cases h2 : ev.status = some "cancelled"
    · simp [processGEvent, h1, h2]
    · by_cases h3 : ev.startDateTime.getD "" = ""
      · simp [processGEvent, h1, h2, h3]
      · cases hd : dparse (ev.startDateTime.getD "") with
        | none => simp [processGEvent, h1, h2, h3, hd]
        | some st =>
          by_cases h5 : st - 180 < now
          · simp [processGEvent, h1, h2, h3, hd, h5]
          · have hM : (lookupL M ev.id).isSome = true := by
              apply h
              by_cases h6 : (lookupL L ev.id).isSome = true
              · simp [processGEvent, h1, h2, h3, hd, h5, h6]
              · rw [Bool.not_eq_true] at h6
                rcases hs (apiCall ev st) with hc | hc <;>
                  simp [processGEvent, h1, h2, h3, hd, h5, h6, recordStep, hc,
                        lookupL_insertL_self]
            simp [processGEvent, h1, h2, h3, hd, h5, hM]

/-- Feed-variant analogue of `processGEvent_dich`. -/
theorem processIcalEvent_dich {sink1 : SinkCall → String} (sink2 : SinkCall → String)
    {now : Int} {L M : Ledger} {ev : IcalEvent}
    (hs : ∀ c, sink1 c = "created" ∨ sink1 c = "exists")
    (h : keysSub (processIcalEvent sink1 now L ev).1 M) :
    processIcalEvent sink2 now M ev = (M, none) := by
  by_cases h1 : iget ev "UID" = ""
  · simp [processIcalEvent, h1]
  · cases hd : parse_ical_datetime (iget ev "DTSTART").data with
    | none => simp [processIcalEvent, h1, hd]
    | some dt =>
      by_cases h3 : (naiveToSec dt < now ∨ naiveToSec dt > now + 86400)
      · simp [processIcalEvent, h1, hd, h3]
      · by_cases h6 : (lookupL M (iget ev "UID")).isSome = true
        · simp [processIcalEvent, h1, hd, h3, h6]
        · by_cases h5 : naiveToSec dt - 180 < now
          · rw [Bool.not_eq_true] at h6
            simp [processIcalEvent, h1, hd, h3, h6, h5]
          · exfalso
            apply h6
            apply h
            by_cases h6' : (lookupL L (iget ev "UID")).isSome = true
            · simp [processIcalEvent, h1, hd, h3, h6', h5]
            · rw [Bool.not_eq_true] at h6'
              rcases hs (icalCall ev (naiveToSec dt)) with hc | hc <;>
                simp [processIcalEvent, h1, hd, h3, h6', h5, recordStep, hc,
                      lookupL_insertL_self]

/-! ## Claims -/

/-- C5 counterexample: in the API variant a network failure in the
unguarded events request (`get_upcoming_events`, line 196) ends the run
by unhandled exception — not by the logged abort — and only after
`load_synced_events` (line 194) has already loaded the ledger for write.
This refutes "aborts after logging" and "neither loaded for write" on a
reachable fetch-failure mode; the persisted store is still not saved and
no sink call is made, which the amended claim keeps. -/
theorem claim_C5_counterexample :
    (sync_calendar_api dp0 skC 36000 true none (some [])).loaded = true ∧
    (sync_calendar_api dp0 skC 36000 true none (some [])).ending = RunEnd.uncaught ∧
    RunEnd.uncaught ≠ RunEnd.loggedAbort ∧
    (sync_calendar_api dp0 skC 36000 true none (some [])).store = some [] ∧
    (sync_calendar_api dp0 skC 36000 true none (some [])).calls = [] := by
  refine ⟨by decide, by decide, by decide, by decide, by decide⟩

/-- C5 amended: a fetch failure never mutates the persisted store and
never reaches the sink, in both variants.  The feed variant's fetch
failure and the API variant's guarded service-connection failure abort
after logging with the ledger neither loaded for write nor saved; but a
failure of the API variant's unguarded events request kills the run by
unhandled exception, after the ledger has already been loaded for write
(though still never saved). -/
theorem claim_C5_amended :
    (∀ (sink : SinkCall → String) (now : Int) (store : Option Ledger),
       sync_calendar_ical sink now none store = (store, [])) ∧
    (∀ (dparse : String → Option Int) (sink : SinkCall → String) (now : Int)
       (fetched : Option (List GEvent)) (store : Option Ledger),
       sync_calendar_api dparse sink now false fetched store =
         ⟨store, [], false, RunEnd.loggedAbort⟩) ∧
    (∀ (dparse : String → Option Int) (sink : SinkCall → String) (now : Int)
       (store : Option Ledger),
       sync_calendar_api dparse sink now true none store =
         ⟨store, [], true, RunEnd.uncaught⟩) :=
  ⟨fun _ _ _ => rfl, fun _ _ _ _ _ => rfl, fun _ _ _ _ => rfl⟩

/-- C8: loading the ledger keeps exactly the entries whose synced-at
timestamp lies strictly within the two-day retention window — every older
entry is dropped, every in-window entry is kept, nothing is added — and
saving the ledger evicts nothing. -/
theorem claim_C8 :
    (∀ (d : Ledger) (now : Int) (k : String) (e : LedgerEntry),
       (k, e) ∈ load_synced_events (some d) now ↔
         (k, e) ∈ d ∧ ∃ t, e.synced_at = some t ∧ now - 172800 < t) ∧
    (∀ L : Ledger, save_synced_events L = L) := by
  constructor
  · intro d now k e
    constructor
    · intro h
      have h' := List.mem_filter.mp h
      refine ⟨h'.1, ?_⟩
      have h2 := h'.2
      cases hs : e.synced_at with
      | none => simp [keepEntry, hs] at h2
      | some t =>
        simp only [keepEntry, hs, decide_eq_true_eq] at h2
        exact ⟨t, rfl, h2⟩
    · rintro ⟨hm, t, hs, ht⟩
      refine List.mem_filter.mpr ⟨hm, ?_⟩
      simp only [keepEntry, hs, decide_eq_true_eq]
      exact ht
  · intro L
    rfl

/-- C2 counterexample: the feed parser gives the same naive result with
and without the trailing UTC indicator, and the eligibility outcome of the
sync step for a `…Z` start differs between the local-clock reference the
code uses (`datetime.now()`, here 14:00 local = 11:00 UTC + 3h) and the
UTC reference the claim requires: under the local clock the event is
dropped, under the UTC clock it is synced.  So the naive parsed result is
not treated as a UTC instant. -/
theorem claim_C2_counterexample :
    parse_ical_datetime "20250611T120000Z".data =
      parse_ical_datetime "20250611T120000".data ∧
    (processIcalEvent skC (naiveToSec ⟨2025, 6, 11, 14, 0, 0⟩) [] evZ).2 = none ∧
    ((processIcalEvent skC (naiveToSec ⟨2025, 6, 11, 11, 0, 0⟩) [] evZ).2).isSome
      = true := by
  refine ⟨by decide, by decide, by decide⟩

/-- C2 amended: the trailing UTC indicator is detected only to be removed —
appending `'Z'` to any date-time value never changes the parsed result, so
the naive fifteen-character value carries no UTC marking and subsequent
eligibility comparisons interpret it against the local clock
(`datetime.now()`), not as a UTC instant. -/
theorem claim_C2_amended :
    ∀ s : List Char, parse_ical_datetime (s ++ ['Z']) = parse_ical_datetime s := by
  intro s
  have h : removeZ (s ++ ['Z']) = removeZ s := by
    induction s with
    | nil => simp [removeZ]
    | cons c r ih => by_cases hc : c = 'Z' <;> simp [removeZ, hc, ih]
  simp [parse_ical_datetime, h]

/-- C1 counterexample: the feed-parse variant never reads the STATUS
property — a cancelled feed event with a valid in-window timed start is
passed to the sink and recorded in the ledger, so cancellation does not
make an event ineligible in that variant. -/
theorem claim_C1_counterexample :
    iget evCan "STATUS" = "CANCELLED" ∧
    ((processIcalEvent skC now0 [] evCan).2).isSome = true ∧
    (lookupL (processIcalEvent skC now0 [] evCan).1 "e2").isSome = true := by
  refine ⟨by decide, by decide, by decide⟩

/-- C1 amended: in the authenticated-API variant an event that is all-day,
has a null/absent/empty/unparseable start, or is cancelled is skipped with
no sink call and no ledger write; in the feed-parse variant an event whose
DTSTART fails to parse (all-day or absent start) is likewise skipped — but
cancellation is only checked in the API variant (see the counterexample). -/
theorem claim_C1_amended :
    (∀ (dparse : String → Option Int) (sink : SinkCall → String) (now : Int)
       (L : Ledger) (ev : GEvent),
       (ev.startDateTime = none ∨ ev.startDateTime = some "" ∨
        ev.status = some "cancelled" ∨
        (∃ s, ev.startDateTime = some s ∧ dparse s = none)) →
       processGEvent dparse sink now L ev = (L, none)) ∧
    (∀ (sink : SinkCall → String) (now : Int) (L : Ledger) (ev : IcalEvent),
       parse_ical_datetime (iget ev "DTSTART").data = none →
       processIcalEvent sink now L ev = (L, none)) := by
  constructor
  · intro dparse sink now L ev h
    rcases h with h | h | h | ⟨s, hs, hd⟩
    · by_cases h1 : (ev.startHasDate && ev.startDateTime.isNone) = true
      · simp [processGEvent, h1]
      · rw [Bool.not_eq_true] at h1
        by_cases h2 : ev.status = some "cancelled"
        · simp [processGEvent, h1, h2]
        · simp [processGEvent, h1, h2, h]
    · by_cases h1 : (ev.startHasDate && ev.startDateTime.isNone) = true
      · simp [processGEvent, h1]
      · rw [Bool.not_eq_true] at h1
        by_cases h2 : ev.status = some "cancelled"
        · simp [processGEvent, h1, h2]
        · simp [processGEvent, h1, h2, h]
    · by_cases h1 : (ev.startHasDate && ev.startDateTime.isNone) = true
      · simp [processGEvent, h1]
      · rw [Bool.not_eq_true] at h1
        simp [processGEvent, h1, h]
    · by_cases h1 : (ev.startHasDate && ev.startDateTime.isNone) = true
      · simp [processGEvent, h1]
      · rw [Bool.not_eq_true] at h1
        by_cases h2 : ev.status = some "cancelled"
        · simp [processGEvent, h1, h2]
        · by_cases h3 : s = ""
          · simp [processGEvent, h1, h2, hs, h3]
          · simp [processGEvent, h1, h2, hs, h3, hd]
  · intro sink now L ev h
    by_cases h1 : iget ev "UID" = ""
    · simp [processIcalEvent, h1]
    · simp [processIcalEvent, h1, h]

/-- C1 witness: a cancelled API event and an all-day feed event are both
skipped. -/
theorem claim_C1_witness :
    processGEvent dp0 skC now0 [] evCanApi = ([], none) ∧
    processIcalEvent skC now0 [] evAD = ([], none) :=
  ⟨claim_C1_amended.1 dp0 skC now0 [] evCanApi (Or.inr (Or.inr (Or.inl rfl))),
   claim_C1_amended.2 skC now0 [] evAD (by decide)⟩

/-- C4: in both variants, an event whose computed fire time
(`start − lead_minutes`, lead 3 minutes = 180 seconds) is strictly before
the reference now is skipped — no sink call, no ledger write — even when
its start is still in the future. -/
theorem claim_C4 :
    (∀ (dparse : String → Option Int) (sink : SinkCall → String) (now : Int)
       (L : Ledger) (ev : GEvent) (s : String) (st : Int),
       ev.startDateTime = some s → dparse s = some st → now < st →
       st - 180 < now →
       processGEvent dparse sink now L ev = (L, none)) ∧
    (∀ (sink : SinkCall → String) (now : Int) (L : Ledger) (ev : IcalEvent)
       (dt : NaiveDT),
       parse_ical_datetime (iget ev "DTSTART").data = some dt →
       now < naiveToSec dt → naiveToSec dt - 180 < now →
       processIcalEvent sink now L ev = (L, none)) := by
  constructor
  · intro dparse sink now L ev s st hs hd hfut hlt
    by_cases h1 : (ev.startHasDate && ev.startDateTime.isNone) = true
    · simp [processGEvent, h1]
    · rw [Bool.not_eq_true] at h1
      by_cases h2 : ev.status = some "cancelled"
      · simp [processGEvent, h1, h2]
      · by_cases h3 : s = ""
        · simp [processGEvent, h1, h2, hs, h3]
        · simp [processGEvent, h1, h2, hs, h3, hd, hlt]
  · intro sink now L ev dt hd hfut hlt
    by_cases h1 : iget ev "UID" = ""
    · simp [processIcalEvent, h1]
    · by_cases h3 : (naiveToSec dt < now ∨ naiveToSec dt > now + 86400)
      · simp [processIcalEvent, h1, hd, h3]
      · by_cases h6 : (lookupL L (iget ev "UID")).isSome = true
        · simp [processIcalEvent, h1, hd, h3, h6]
        · rw [Bool.not_eq_true] at h6
          simp [processIcalEvent, h1, hd, h3, h6, hlt]

/-- C4 witness: events at 10:01:40 (API) and 10:01:30 (feed) against a
10:00:00 now — starts in the future, fire times already past — are
skipped. -/
theorem claim_C4_witness :
    processGEvent dp4 skC 36000 [] evC4api = ([], none) ∧
    processIcalEvent skC now0 [] evC4 = ([], none) :=
  ⟨claim_C4.1 dp4 skC 36000 [] evC4api "2025-06-11T10:01:40" 36100 rfl rfl
     (by decide) (by decide),
   claim_C4.2 skC now0 [] evC4 ⟨2025, 6, 11, 10, 1, 30⟩ (by decide) (by decide)
     (by decide)⟩

/-- Two string appends with distinct head characters are distinct. -/
theorem string_append_head_ne (a b : String) (c d : Char)
    (ha : a.data.head? = some c) (hb : b.data.head? = some d) (hne : c ≠ d)
    (x y : String) : a ++ x ≠ b ++ y := by
  intro he
  have h1 : (a ++ x).data.head? = some c := by
    rw [String.data_append, List.head?_append, ha]; rfl
  have h2 : (b ++ y).data.head? = some d := by
    rw [String.data_append, List.head?_append, hb]; rfl
  rw [he, h2] at h1
  exact hne (Option.some.inj h1).symm

/-- An `Organizer:` line is never one of the other body parts. -/
theorem organizer_not_in_base (ev : GEvent) (st : Int) (org : String) :
    ("Organizer: " ++ org) ∉
      (["Starts at " ++ String.mk (fmtHM st)] ++
        (match extract_meeting_link ev with
         | some l => ["Join: " ++ l]
         | none => [])) := by
  intro hmem
  rcases List.mem_append.mp hmem with hm | hm
  · have hm' := List.mem_singleton.mp hm
    exact string_append_head_ne "Organizer: " "Starts at " 'O' 'S' rfl rfl
      (by decide) org _ hm'
  · cases hlink : extract_meeting_link ev with
    | none =>
      simp only [hlink] at hm
      exact absurd hm (List.not_mem_nil _)
    | some l =>
      simp only [hlink, List.mem_singleton] at hm
      exact string_append_head_ne "Organizer: " "Join: " 'O' 'J' rfl rfl
        (by decide) org l hm

/-- C3: whenever either variant's per-event step reaches the sink, the
sink outcome determines the ledger write — outcome `"created"` or
`"exists"` writes/refreshes an entry for that event id with this run's
`synced_at`, any other outcome (failure) leaves the ledger exactly as it
was, so the event stays eligible for retry next run. -/
theorem claim_C3 :
    (∀ (dparse : String → Option Int) (sink : SinkCall → String) (now : Int)
       (L : Ledger) (ev : GEvent) (L' : Ledger) (c : SinkCall),
       processGEvent dparse sink now L ev = (L', some c) →
       ((sink c = "created" ∨ sink c = "exists") →
          ∃ e, e.synced_at = some now ∧ L' = insertL L c.event_id e) ∧
       (sink c ≠ "created" → sink c ≠ "exists" → L' = L)) ∧
    (∀ (sink : SinkCall → String) (now : Int) (L : Ledger) (ev : IcalEvent)
       (L' : Ledger) (c : SinkCall),
       processIcalEvent sink now L ev = (L', some c) →
       ((sink c = "created" ∨ sink c = "exists") →
          ∃ e, e.synced_at = some now ∧ L' = insertL L c.event_id e) ∧
       (sink c ≠ "created" → sink c ≠ "exists" → L' = L)) := by
  constructor
  · intro dparse sink now L ev L' c h
    by_cases h1 : (ev.startHasDate && ev.startDateTime.isNone) = true
    · simp [processGEvent, h1] at h
    · rw [Bool.not_eq_true] at h1
      by_cases h2 : ev.status = some "cancelled"
      · simp [processGEvent, h1, h2] at h
      · by_cases h3 : ev.startDateTime.getD "" = ""
        · simp [processGEvent, h1, h2, h3] at h
        · cases hd : dparse (ev.startDateTime.getD "") with
          | none => simp [processGEvent, h1, h2, h3, hd] at h
          | some st =>
            by_cases h5 : st - 180 < now
            · simp [processGEvent, h1, h2, h3, hd, h5] at h
            · by_cases h6 : (lookupL L ev.id).isSome = true
              · simp [processGEvent, h1, h2, h3, hd, h5, h6] at h
              · rw [Bool.not_eq_true] at h6
                simp only [processGEvent, h1, h2, h3, hd, h5, h6, Bool.false_eq_true,
                  if_false, if_neg] at h
                obtain ⟨hc, hrec, hfail⟩ := recordStep_inv h
                subst hc
                refine ⟨fun hres => ⟨apiEntry ev st now, rfl, ?_⟩, hfail⟩
                rw [hrec hres]
                rfl
  · intro sink now L ev L' c h
    by_cases h1 : iget ev "UID" = ""
    · simp [processIcalEvent, h1] at h
    · cases hd : parse_ical_datetime (iget ev "DTSTART").data with
      | none => simp [processIcalEvent, h1, hd] at h
      | some dt =>
        by_cases h3 : (naiveToSec dt < now ∨ naiveToSec dt > now + 86400)
        · simp [processIcalEvent, h1, hd, h3] at h
        · by_cases h6 : (lookupL L (iget ev "UID")).isSome = true
          · simp [processIcalEvent, h1, hd, h3, h6] at h
          · rw [Bool.not_eq_true] at h6
            by_cases h5 : naiveToSec dt - 180 < now
            · simp [processIcalEvent, h1, hd, h3, h6, h5] at h
            · simp only [processIcalEvent, h1, hd, h3, h6, h5, Bool.false_eq_true,
                if_false, if_neg] at h
              obtain ⟨hc, hrec, hfail⟩ := recordStep_inv h
              subst hc
              refine ⟨fun hres => ⟨icalEntry ev (naiveToSec dt) now, rfl, ?_⟩, hfail⟩
              rw [hrec hres]
              rfl

/-- C3 witness: a `"created"` outcome records the API event `evW`; a
failing sink outcome leaves the ledger of the feed run unchanged. -/
theorem claim_C3_witness :
    (∃ e, e.synced_at = some (36000 : Int) ∧
       ([("e1", ⟨"Meet", 43200, some 36000⟩)] : Ledger) =
         insertL [] cW.event_id e) ∧
    (([] : Ledger) = []) :=
  ⟨(claim_C3.1 dp0 skC 36000 [] evW [("e1", ⟨"Meet", 43200, some 36000⟩)] cW
      (by decide)).1 (Or.inl rfl),
   (claim_C3.2 skF now0 [] evCan [] cCan (by decide)).2 (by decide) (by decide)⟩

/-- C7 counterexample: in the feed variant the raw (still escaped)
DESCRIPTION is what the link scan reads — the reminder body carries the
URL truncated at the escape sequence, while scanning the decoded
DESCRIPTION (what the claim requires) would yield a different, longer
URL.  So backslash escapes are not decoded in the description before the
link scan. -/
theorem claim_C7_counterexample :
    (processIcalEvent skC now0 [] evEsc).2 =
      some ⟨"e7", "📅 Untitled Meeting - 12:00",
            "Starts at 12:00\nJoin: https://zoom.us/j/1",
            naiveToSec ⟨2025, 6, 11, 12, 0, 0⟩ - 180⟩ ∧
    icalLinkScan (iget evEsc "DESCRIPTION").data [] =
      some "https://zoom.us/j/1".data ∧
    icalLinkScan (icalUnescape (iget evEsc "DESCRIPTION").data) [] =
      some "https://zoom.us/j/1,2".data := by
  refine ⟨by decide, by decide, by decide⟩

/-- C7 amended: in every sink call made by the feed variant, the title is
built from the backslash-decoded SUMMARY, but the Join link of the body is
computed from the raw, undecoded DESCRIPTION and LOCATION values — only
the summary field is unescaped before use. -/
theorem claim_C7_amended :
    ∀ (sink : SinkCall → String) (now : Int) (L : Ledger) (ev : IcalEvent)
      (L' : Ledger) (c : SinkCall),
      processIcalEvent sink now L ev = (L', some c) →
      ∃ dt, parse_ical_datetime (iget ev "DTSTART").data = some dt ∧
        c.title = icalTitle (icalSummary ev) (naiveToSec dt) ∧
        c.body = icalBody (naiveToSec dt)
          (icalLinkScan (iget ev "DESCRIPTION").data (iget ev "LOCATION").data) := by
  intro sink now L ev L' c h
  by_cases h1 : iget ev "UID" = ""
  · simp [processIcalEvent, h1] at h
  · cases hd : parse_ical_datetime (iget ev "DTSTART").data with
    | none => simp [processIcalEvent, h1, hd] at h
    | some dt =>
      by_cases h3 : (naiveToSec dt < now ∨ naiveToSec dt > now + 86400)
      · simp [processIcalEvent, h1, hd, h3] at h
      · by_cases h6 : (lookupL L (iget ev "UID")).isSome = true
        · simp [processIcalEvent, h1, hd, h3, h6] at h
        · rw [Bool.not_eq_true] at h6
          by_cases h5 : naiveToSec dt - 180 < now
          · simp [processIcalEvent, h1, hd, h3, h6, h5] at h
          · simp only [processIcalEvent, h1, hd, h3, h6, h5, Bool.false_eq_true,
              if_false, if_neg] at h
            obtain ⟨hc, _, _⟩ := recordStep_inv h
            subst hc
            exact ⟨dt, rfl, rfl, rfl⟩

/-- C7 witness: the sink call for `evEsc` exhibits the decoded summary in
the title and the raw-description-derived link in the body. -/
theorem claim_C7_witness :
    ∃ dt, parse_ical_datetime (iget evEsc "DTSTART").data = some dt ∧
      (⟨"e7", "📅 Untitled Meeting - 12:00",
        "Starts at 12:00\nJoin: https://zoom.us/j/1",
        naiveToSec ⟨2025, 6, 11, 12, 0, 0⟩ - 180⟩ : SinkCall).title =
        icalTitle (icalSummary evEsc) (naiveToSec dt) ∧
      (⟨"e7", "📅 Untitled Meeting - 12:00",
        "Starts at 12:00\nJoin: https://zoom.us/j/1",
        naiveToSec ⟨2025, 6, 11, 12, 0, 0⟩ - 180⟩ : SinkCall).body =
        icalBody (naiveToSec dt)
          (icalLinkScan (iget evEsc "DESCRIPTION").data (iget evEsc "LOCATION").data) :=
  claim_C7_amended skC now0 [] evEsc
    [("e7", ⟨"Untitled Meeting", naiveToSec ⟨2025, 6, 11, 12, 0, 0⟩, some now0⟩)]
    ⟨"e7", "📅 Untitled Meeting - 12:00",
     "Starts at 12:00\nJoin: https://zoom.us/j/1",
     naiveToSec ⟨2025, 6, 11, 12, 0, 0⟩ - 180⟩ (by decide)

/-- C10: in the API variant's reminder body parts, the `Organizer:` line
appears exactly when the organizer email is non-empty and differs from the
hard-coded address `boriss@wix.com`; when it equals that address the line
is silently omitted. -/
theorem claim_C10 :
    ∀ (ev : GEvent) (st : Int),
      ("Organizer: " ++ ev.organizerEmail) ∈ apiBodyParts ev st ↔
        (ev.organizerEmail ≠ "" ∧ ev.organizerEmail ≠ "boriss@wix.com") := by
  intro ev st
  by_cases hcond : ev.organizerEmail ≠ "" ∧ ev.organizerEmail ≠ "boriss@wix.com"
  · simp only [apiBodyParts, if_pos hcond]
    constructor
    · intro _
      exact hcond
    · intro _
      simp [List.mem_append]
  · simp only [apiBodyParts, if_neg hcond, List.append_nil]
    constructor
    · intro hmem
      exact absurd hmem (organizer_not_in_base ev st _)
    · intro hc
      exact absurd hc hcond

/-! ## Helper lemmas: the link scanners -/

theorem stripPrefixC_append (p t : List Char) : stripPrefixC p (p ++ t) = some t := by
  induction p with
  | nil => rfl
  | cons c r ih => simp [stripPrefixC, ih]

theorem isPrefixC_append (p t : List Char) : isPrefixC p (p ++ t) = true := by
  rw [isPrefixC, stripPrefixC_append]
  rfl

theorem containsSub_of_prefixC {n h : List Char} (hp : isPrefixC n h = true) :
    containsSub n h = true := by
  cases h with
  | nil => exact hp
  | cons c t => simp [containsSub, hp]

theorem containsSub_cons {n t : List Char} (c : Char) (h : containsSub n t = true) :
    containsSub n (c :: t) = true := by
  simp [containsSub, h]

theorem containsSub_append_left {n t : List Char} (a : List Char)
    (h : containsSub n t = true) : containsSub n (a ++ t) = true := by
  induction a with
  | nil => exact h
  | cons c r ih => exact containsSub_cons c ih

theorem reSearch_some {mAt : List Char → Option (List Char)} {u : List Char} :
    ∀ {cs : List Char}, reSearch mAt cs = some u → ∃ s, mAt s = some u := by
  intro cs
  induction cs with
  | nil => intro h; exact ⟨[], h⟩
  | cons c rest ih =>
    intro h
    rw [reSearch] at h
    cases hm : mAt (c :: rest) with
    | some m =>
      simp only [hm] at h
      exact ⟨c :: rest, hm.trans h⟩
    | none =>
      simp only [hm] at h
      exact ih h

theorem matchZoomAt_some {s u : List Char} (h : matchZoomAt s = some u) :
    ∃ a b, u = "https://".data ++ a ++ "zoom.us/".data ++ b := by
  unfold matchZoomAt at h
  cases h1 : stripPrefixC ("https://".data) s with
  | none => simp [h1] at h
  | some rest =>
    simp only [h1] at h
    cases h2 : zoomSplit rest with
    | none => simp [h2] at h
    | some pr =>
      obtain ⟨pre, tl⟩ := pr
      simp only [h2] at h
      exact ⟨pre, tl.takeWhile allowedTail, (Option.some.inj h).symm⟩

theorem matchAnchoredAt_some {lit s u : List Char}
    (h : matchAnchoredAt lit s = some u) : isPrefixC lit u = true := by
  unfold matchAnchoredAt at h
  cases h1 : stripPrefixC lit s with
  | none => simp [h1] at h
  | some rest =>
    simp only [h1] at h
    cases rest with
    | nil => simp at h
    | cons t r =>
      simp only [] at h
      split_ifs at h with ht
      have hu := (Option.some.inj h).symm
      rw [hu]
      exact isPrefixC_append lit _

theorem urlMatchAt_some {cs m rem : List Char} (h : urlMatchAt cs = some (m, rem)) :
    ∃ b, m = "https://".data ++ b := by
  unfold urlMatchAt at h
  cases h1 : stripPrefixC ("https://".data) cs with
  | none => simp [h1] at h
  | some rest =>
    simp only [h1] at h
    cases rest with
    | nil => simp at h
    | cons t r =>
      simp only [] at h
      split_ifs at h with ht
      have h' := Option.some.inj h
      exact ⟨(t :: r).takeWhile allowedUrl, (congrArg Prod.fst h').symm⟩

theorem findallUrlsF_prefixed :
    ∀ (f : Nat) (cs u : List Char), u ∈ findallUrlsF f cs →
      ∃ b, u = "https://".data ++ b := by
  intro f
  induction f with
  | zero => intro cs u h; simp [findallUrlsF] at h
  | succ f ih =>
    intro cs u h
    cases cs with
    | nil => simp [findallUrlsF] at h
    | cons c rest =>
      rw [findallUrlsF] at h
      cases hm : urlMatchAt (c :: rest) with
      | none =>
        simp only [hm] at h
        exact ih rest u h
      | some pr =>
        obtain ⟨m, rem⟩ := pr
        simp only [hm] at h
        rcases List.mem_cons.mp h with h' | h'
        · rcases urlMatchAt_some hm with ⟨b, hb⟩
          exact ⟨b, h' ▸ hb⟩
        · exact ih rem u h'

theorem icalScanText_sound {t u : List Char} (h : icalScanText t = some u) :
    isPrefixC "https://".data u = true ∧ providerSub u = true := by
  unfold icalScanText at h
  have hp := List.find?_some h
  have hmem := List.mem_of_find?_eq_some h
  rcases findallUrlsF_prefixed _ _ _ hmem with ⟨b, hb⟩
  rw [hb]
  exact ⟨isPrefixC_append _ _, hb ▸ hp⟩

/-- C6 counterexample: the zoom pattern of the API variant matches
`https://notzoom.us/j/1`, whose host `notzoom.us` is not a provider
domain nor a subdomain of one; the feed variant's substring check matches
`https://evil.com/?ref=zoom.us`, host `evil.com`.  Both scans therefore
return URLs of unrelated domains that merely contain a provider domain as
a substring. -/
theorem claim_C6_counterexample :
    extract_meeting_link evSub = some "https://notzoom.us/j/1" ∧
    isProviderHost (hostOf "https://notzoom.us/j/1".data) = false ∧
    icalLinkScan "see https://evil.com/?ref=zoom.us now".data [] =
      some "https://evil.com/?ref=zoom.us".data ∧
    isProviderHost (hostOf "https://evil.com/?ref=zoom.us".data) = false := by
  refine ⟨by decide, by decide, by decide, by decide⟩

/-- C6 amended: every URL returned by the scans is an https URL containing
a provider domain as a substring — the meet and teams patterns are
anchored at the exact provider host, but the zoom pattern admits any
non-whitespace run before `zoom.us/` and the feed variant admits any URL
containing a provider domain anywhere, so a provider domain occurring
inside a URL of an unrelated host is also matched (see the
counterexample). -/
theorem claim_C6_amended :
    (∀ d u, regexScanAPI d = some u →
       containsSub "zoom.us/".data u = true ∨
       isPrefixC "https://meet.google.com/".data u = true ∨
       isPrefixC "https://teams.microsoft.com/".data u = true) ∧
    (∀ d l u, icalLinkScan d l = some u →
       isPrefixC "https://".data u = true ∧ providerSub u = true) := by
  constructor
  · intro d u h
    unfold regexScanAPI at h
    cases h1 : reSearch matchZoomAt d with
    | some m =>
      simp only [h1] at h
      obtain ⟨s, hs⟩ := reSearch_some h1
      left
      have hm : matchZoomAt s = some u := hs.trans h
      rcases matchZoomAt_some hm with ⟨a, b, hu⟩
      rw [hu, List.append_assoc ("https://".data ++ a) ("zoom.us/".data) b]
      exact containsSub_append_left _
        (containsSub_of_prefixC (isPrefixC_append _ b))
    | none =>
      simp only [h1] at h
      cases h2 : reSearch (matchAnchoredAt "https://meet.google.com/".data) d with
      | some m =>
        simp only [h2] at h
        obtain ⟨s, hs⟩ := reSearch_some h2
        right; left
        exact matchAnchoredAt_some (hs.trans h)
      | none =>
        simp only [h2] at h
        obtain ⟨s, hs⟩ := reSearch_some h
        right; right
        exact matchAnchoredAt_some hs
  · intro d l u h
    unfold icalLinkScan at h
    split_ifs at h with hp1 hp2
    · exact icalScanText_sound h
    · exact icalScanText_sound h

/-- C6 witness: a genuine zoom URL and a genuine meet URL are returned
with the promised shape. -/
theorem claim_C6_witness :
    (containsSub "zoom.us/".data "https://zoom.us/j/5".data = true ∨
     isPrefixC "https://meet.google.com/".data "https://zoom.us/j/5".data = true ∨
     isPrefixC "https://teams.microsoft.com/".data "https://zoom.us/j/5".data = true) ∧
    (isPrefixC "https://".data "https://meet.google.com/abc".data = true ∧
     providerSub "https://meet.google.com/abc".data = true) :=
  ⟨claim_C6_amended.1 "x https://zoom.us/j/5".data "https://zoom.us/j/5".data
     (by decide),
   claim_C6_amended.2 "at https://meet.google.com/abc".data []
     "https://meet.google.com/abc".data (by decide)⟩

/-- C9: running either sync pass twice over the same calendar data at the
same reference instant — first pass with any sink that never fails,
second pass with any sink at all — leaves the persisted ledger of the
first pass exactly as it was and makes no sink call in the second pass:
every event is either already recorded (skipped before the sink) or
ineligible, so no duplicate entries appear and no entries are lost. -/
theorem claim_C9 :
    (∀ (dparse : String → Option Int) (sink1 sink2 : SinkCall → String) (now : Int)
       (events : List GEvent) (store : Option Ledger),
       (∀ c, sink1 c = "created" ∨ sink1 c = "exists") →
       sync_calendar_api dparse sink2 now true (some events)
           (sync_calendar_api dparse sink1 now true (some events) store).store =
         ⟨(sync_calendar_api dparse sink1 now true (some events) store).store, [],
          true, RunEnd.completed⟩) ∧
    (∀ (sink1 sink2 : SinkCall → String) (now : Int) (events : List IcalEvent)
       (store : Option Ledger),
       (∀ c, sink1 c = "created" ∨ sink1 c = "exists") →
       sync_calendar_ical sink2 now (some events)
           (sync_calendar_ical sink1 now (some events) store).1 =
         ((sync_calendar_ical sink1 now (some events) store).1, [])) := by
  constructor
  · intro dparse sink1 sink2 now events store hs
    set F := (syncFold (processGEvent dparse sink1 now)
      (load_synced_events store now) events).1 with hFdef
    have hrun1 : (sync_calendar_api dparse sink1 now true (some events) store).store
      = some F := rfl
    rw [hrun1]
    have hfresh : freshL now F :=
      freshL_fold _ (fun L ev h => freshL_processGEvent dparse sink1 ev h) events _
        (freshL_load store now)
    have hload2 : load_synced_events (some F) now = F := load_of_fresh hfresh
    have hstable : syncFold (processGEvent dparse sink2 now) F events = (F, []) :=
      syncFold_stable _ _ (fun L ev => processGEvent_keysSub dparse sink1 now L ev)
        (fun L M ev hsub => processGEvent_dich sink2 hs hsub) events
        (load_synced_events store now) F (keysSub_refl F)
    show (⟨some (save_synced_events
        (syncFold (processGEvent dparse sink2 now)
          (load_synced_events (some F) now) events).1),
      (syncFold (processGEvent dparse sink2 now)
        (load_synced_events (some F) now) events).2, true, RunEnd.completed⟩ : RunTrace)
      = ⟨some F, [], true, RunEnd.completed⟩
    rw [hload2, hstable]
    rfl
  · intro sink1 sink2 now events store hs
    set F := (syncFold (processIcalEvent sink1 now)
      (load_synced_events store now) events).1 with hFdef
    have hrun1 : (sync_calendar_ical sink1 now (some events) store).1 = some F := rfl
    rw [hrun1]
    have hfresh : freshL now F :=
      freshL_fold _ (fun L ev h => freshL_processIcalEvent sink1 ev h) events _
        (freshL_load store now)
    have hload2 : load_synced_events (some F) now = F := load_of_fresh hfresh
    have hstable : syncFold (processIcalEvent sink2 now) F events = (F, []) :=
      syncFold_stable _ _ (fun L ev => processIcalEvent_keysSub sink1 now L ev)
        (fun L M ev hsub => processIcalEvent_dich sink2 hs hsub) events
        (load_synced_events store now) F (keysSub_refl F)
    show (some (save_synced_events
        (syncFold (processIcalEvent sink2 now)
          (load_synced_events (some F) now) events).1),
      (syncFold (processIcalEvent sink2 now)
        (load_synced_events (some F) now) events).2) = (some F, [])
    rw [hload2, hstable]
    rfl

/-- C9 witness: two back-to-back runs over one event in each variant — the
second run changes nothing and consults no sink. -/
theorem claim_C9_witness :
    sync_calendar_api dp0 skE 36000 true (some [evW])
        (sync_calendar_api dp0 skC 36000 true (some [evW]) (some [])).store =
      ⟨(sync_calendar_api dp0 skC 36000 true (some [evW]) (some [])).store, [],
       true, RunEnd.completed⟩ ∧
    sync_calendar_ical skE now0 (some [evCan])
        (sync_calendar_ical skC now0 (some [evCan]) (some [])).1 =
      ((sync_calendar_ical skC now0 (some [evCan]) (some [])).1, []) :=
  ⟨claim_C9.1 dp0 skC skE 36000 [evW] (some []) (fun _ => Or.inl rfl),
   claim_C9.2 skC skE now0 [evCan] (some []) (fun _ => Or.inl rfl)⟩

end MeetingSync
